import Mathlib

/-!
Verification of the Hedge Blotter trade pipeline (src/app.py,
src/utils/data_storage.py): shallow embedding of the reconciliation
engine, the column normalizers, and the flat-file persistence layer,
with theorems checking the specification's claims about them.
-/

/-- A cell value of a tabular dataset.  `na` is the missing-value marker
(pandas `NaN`/`NaT`/`None`), `vstr` a string cell, `vint` an integer cell
(numeric cells are modelled as integers; float formatting is outside the
scope of the claims checked here), `vdate y m d` a calendar date
(`datetime.date`). -/
inductive Val where
  | na : Val
  | vstr : String → Val
  | vint : Int → Val
  | vdate : Nat → Nat → Nat → Val
  deriving DecidableEq, Repr

/-- Left-pad the decimal form of `n` with zeros to width `w`. -/
def padNum (w : Nat) (n : Nat) : String :=
  let s := toString n
  String.mk (List.replicate (w - s.length) '0') ++ s

/-- Python `str()` of a cell, as applied by pandas `.astype(str)`:
`str(nan) = "nan"`, `str(datetime.date(y, m, d))` is ISO `YYYY-MM-DD`. -/
def Val.astype_str : Val → String
  | .na => "nan"
  | .vstr s => s
  | .vint n => toString n
  | .vdate y m d => padNum 4 y ++ "-" ++ padNum 2 m ++ "-" ++ padNum 2 d

-- ------------------------------
-- Reconciliation engine model (src/app.py, perform_recon)
-- ------------------------------

/-- One row of a trade DataFrame as seen by the reconciliation: its
`trade_id` cell plus an abstract payload standing for all other fields. -/
structure RRow where
  trade_id : Val
  payload : Nat
  deriving DecidableEq, Repr

/-- A side of the reconciliation: whether the `trade_id` column exists in
the DataFrame, and its rows.  When `hasTradeId = false` the code never
consults the rows' `trade_id` field. -/
structure TradeDF where
  hasTradeId : Bool
  rows : List RRow
  deriving DecidableEq, Repr

/-- `set(df["trade_id"].dropna().astype(str))`, guarded by
`not df.empty and "trade_id" in df.columns` (src/app.py lines 442-448):
the set of distinct, non-missing, string-cast trade ids of one side. -/
def dfIds (df : TradeDF) : Finset String :=
  if df.rows ≠ [] ∧ df.hasTradeId = true then
    (df.rows.filterMap (fun r =>
      if r.trade_id = Val.na then none else some r.trade_id.astype_str)).toFinset
  else ∅

/-- The three output partitions of `perform_recon`. -/
structure ReconResult where
  matched : List RRow
  only_mars : List RRow
  only_manual : List RRow
  deriving DecidableEq, Repr

/-- Shallow embedding of `perform_recon` (src/app.py lines 430-465).
Row filters mirror `df[df["trade_id"].astype(str).isin(ids)]`: the filter
casts every cell with `str()` (so a missing id becomes the string `"nan"`)
and keeps rows whose cast lies in the given id set, preserving row order. -/
def perform_recon (mars_df exotics_df : TradeDF) : ReconResult :=
  if mars_df.rows = [] ∧ exotics_df.rows = [] then ⟨[], [], []⟩
  else
    let mars_ids := dfIds mars_df
    let exotic_ids := dfIds exotics_df
    let matched_ids := mars_ids ∩ exotic_ids
    let only_mars_ids := mars_ids \ exotic_ids
    let only_exotic_ids := exotic_ids \ mars_ids
    let matched :=
      if matched_ids ≠ ∅ ∧ mars_df.hasTradeId = true ∧ exotics_df.hasTradeId = true then
        mars_df.rows.filter (fun r => decide (r.trade_id.astype_str ∈ matched_ids))
          ++ exotics_df.rows.filter (fun r => decide (r.trade_id.astype_str ∈ matched_ids))
      else []
    let onlyM :=
      if only_mars_ids ≠ ∅ ∧ mars_df.hasTradeId = true then
        mars_df.rows.filter (fun r => decide (r.trade_id.astype_str ∈ only_mars_ids))
      else []
    let onlyE :=
      if only_exotic_ids ≠ ∅ ∧ exotics_df.hasTradeId = true then
        exotics_df.rows.filter (fun r => decide (r.trade_id.astype_str ∈ only_exotic_ids))
      else []
    ⟨matched, onlyM, onlyE⟩

/-- The set of string-cast `trade_id`s of a list of output rows. -/
def outIds (l : List RRow) : Finset String :=
  (l.map (fun r => r.trade_id.astype_str)).toFinset

-- ------------------------------
-- Column normalizer model (src/app.py, load_mars_data / load_exotics_data)
-- ------------------------------

/-- Raw tabular input after pandas has read the file into a DataFrame:
textual column headers and row-major cells.  Cells missing from a ragged
row read as `na`. -/
structure RawTable where
  headers : List String
  rows : List (List Val)
  deriving DecidableEq, Repr

/-- ASCII whitespace, as stripped by Python `str.strip()`. -/
def isWsChar (c : Char) : Bool :=
  c == ' ' || c == '\t' || c == '\n' || c == '\r'

/-- `df.columns.str.lower().str.strip()` applied to one header. -/
def normHeader (s : String) : String :=
  String.mk ((((s.toList.map Char.toLower).dropWhile isWsChar).reverse.dropWhile
    isWsChar).reverse)

/-- The input's headers after normalization. -/
def RawTable.normHeaders (t : RawTable) : List String := t.headers.map normHeader

/-- The values of column `i`. -/
def RawTable.colVals (t : RawTable) (i : Nat) : List Val :=
  t.rows.map (fun row => row.getD i Val.na)

/-- The column selected by the first alias (in priority order) present
among the normalized headers, or `none` when no alias matches.  A matched
label that occurs more than once is handled separately (`dupSelected`). -/
def aliasCol (t : RawTable) (aliases : List String) : Option (List Val) :=
  (aliases.find? (fun a => t.normHeaders.contains a)).map
    (fun a => t.colVals (t.normHeaders.indexOf a))

/-- After lower/strip normalization two raw headers can collide; selecting
such a duplicated label makes `df[label]` a two-column DataFrame, whose
assignment into a single column raises, and the loader's exception handler
returns an empty DataFrame.  True when some matched alias is duplicated
among the normalized headers. -/
def dupSelected (t : RawTable) (schema : List (String × List String)) : Bool :=
  schema.any (fun p =>
    match p.2.find? (fun a => t.normHeaders.contains a) with
    | some a => decide (2 ≤ t.normHeaders.count a)
    | none => false)

/-- A pandas DataFrame under construction: columns in insertion order and
the current index length. -/
structure Frame where
  cols : List (String × List Val)
  nrows : Nat
  deriving DecidableEq, Repr

/-- `frame[name] = scalar`: the scalar is broadcast over the current
index (over an empty index this yields an empty column). -/
def Frame.setScalar (f : Frame) (name : String) (v : Val) : Frame :=
  ⟨f.cols ++ [(name, List.replicate f.nrows v)], f.nrows⟩

/-- Align a series with index `RangeIndex(vals.length)` to an index
`RangeIndex(n)`: positions beyond the series fill with `NaN`. -/
def alignTo (n : Nat) (vals : List Val) : List Val :=
  (List.range n).map (fun i => vals.getD i Val.na)

/-- `frame[name] = series`.  pandas `DataFrame.__setitem__` first runs
`_ensure_valid_index` (GH5632): when the frame's index is empty and the
assigned value is a nonempty list-like, the whole frame is reindexed to
the value's index, filling every existing column with `NaN`; otherwise
the series is aligned to the existing index. -/
def Frame.setSeries (f : Frame) (name : String) (vals : List Val) : Frame :=
  if f.nrows = 0 ∧ vals.length ≠ 0 then
    ⟨f.cols.map (fun c => (c.1, List.replicate vals.length Val.na)) ++ [(name, vals)],
      vals.length⟩
  else
    ⟨f.cols ++ [(name, alignTo f.nrows vals)], f.nrows⟩

/-- The values of the named column of a frame ([] when absent). -/
def Frame.colValsN (f : Frame) (name : String) : List Val :=
  match f.cols.find? (fun c => c.1 == name) with
  | some c => c.2
  | none => []

/-- Replace an existing column's values in place. -/
def Frame.updCol (f : Frame) (name : String) (vals : List Val) : Frame :=
  ⟨f.cols.map (fun c => if c.1 = name then (c.1, vals) else c), f.nrows⟩

/-- Apply a cell transform to every listed column
(`df[col] = pd.to_···(df[col], errors="coerce")`). -/
def Frame.coerceCols (f : Frame) (names : List String) (g : Val → Val) : Frame :=
  ⟨f.cols.map (fun c => if names.contains c.1 then (c.1, c.2.map g) else c), f.nrows⟩

/-- Expected MARS columns: canonical field → priority-ordered accepted
aliases (src/app.py lines 121-135). -/
def mars_columns : List (String × List String) :=
  [("trade_date", ["trade_date", "date", "trade date"]),
   ("trade_id", ["trade_id", "tradeid", "id", "trade id"]),
   ("book", ["book", "portfolio"]),
   ("strategy", ["strategy", "strat"]),
   ("side", ["side", "direction"]),
   ("index", ["index", "underlying", "ticker"]),
   ("bbg_ticker", ["bbg_ticker", "bloomberg_ticker", "bbg ticker", "ticker"]),
   ("notional_mm_or_contracts", ["notional_mm_or_contracts", "notional", "size"]),
   ("expiry", ["expiry", "expiration", "maturity"]),
   ("payoff_type", ["payoff_type", "payoff", "product_type"]),
   ("strike", ["strike", "strike_price"]),
   ("cost_bp_or_pt", ["cost_bp_or_pt", "cost_bp", "premium_bp"]),
   ("cost_usd", ["cost_usd", "cost", "premium_usd"])]

/-- Expected exotics columns (src/app.py lines 210-227). -/
def exotics_columns : List (String × List String) :=
  [("trade_date", ["trade_date", "date", "trade date"]),
   ("trade_id", ["trade_id", "tradeid", "id", "trade id"]),
   ("book", ["book", "portfolio"]),
   ("strategy", ["strategy", "strat"]),
   ("side", ["side", "direction"]),
   ("notional_mm", ["notional_mm", "notional", "size"]),
   ("expiry", ["expiry", "expiration", "maturity"]),
   ("index1", ["index1", "underlying1", "ticker1"]),
   ("cond1", ["cond1", "condition1", "barrier_type1"]),
   ("strike1", ["strike1", "strike_1", "barrier1"]),
   ("index2", ["index2", "underlying2", "ticker2"]),
   ("cond2", ["cond2", "condition2", "barrier_type2"]),
   ("strike2", ["strike2", "strike_2", "barrier2"]),
   ("logic", ["logic", "and_or", "operator"]),
   ("cost_bp", ["cost_bp", "premium_bp", "cost"]),
   ("cost_usd", ["cost_usd", "premium_usd", "cost_dollars"])]

/-- One iteration of the column-mapping loop: the first matching alias
populates the field as a series; otherwise the field is assigned the
scalar `NaN`. -/
def mapStep (t : RawTable) (f : Frame) (p : String × List String) : Frame :=
  match aliasCol t p.2 with
  | some vals => f.setSeries p.1 vals
  | none => f.setScalar p.1 Val.na

/-- The column-mapping loop over the whole schema, starting from the fresh
empty DataFrame `standardized = pd.DataFrame()`. -/
def mapColumns (t : RawTable) (schema : List (String × List String)) : Frame :=
  schema.foldl (mapStep t) ⟨[], 0⟩

/-- `needle` occurs at the start of `hay`. -/
def startsWithList : List Char → List Char → Bool
  | [], _ => true
  | _ :: _, [] => false
  | a :: as, b :: bs => a == b && startsWithList as bs

/-- `needle` occurs somewhere inside `hay` (Python `needle in hay`). -/
def containsList (needle : List Char) : List Char → Bool
  | [] => startsWithList needle []
  | b :: bs => startsWithList needle (b :: bs) || containsList needle bs

/-- Case-insensitive substring test: `sub` occurs in `str(v).upper()`. -/
def containsUpper (v : Val) (sub : String) : Bool :=
  containsList sub.toList (v.astype_str.toList.map Char.toUpper)

/-- `detect_vanilla_trade` (src/app.py lines 158-167) on one row: the
row's `index` or `bbg_ticker` cell is non-missing and its uppercased text
contains `"SPY"` or `"CDX"`. -/
def detect_vanilla_trade (idx bbg : Val) : Bool :=
  (!(idx == Val.na) && (containsUpper idx "SPY" || containsUpper idx "CDX"))
    || (!(bbg == Val.na) && (containsUpper bbg "SPY" || containsUpper bbg "CDX"))

/-- One row of the payoff auto-classification: an explicitly mapped payoff
is kept; a detected vanilla row's missing payoff becomes `"Vanilla"`; a
payoff still missing after that becomes `"Unknown"`. -/
def payoffStep (p idx bbg : Val) : Val :=
  if p = Val.na then
    if detect_vanilla_trade idx bbg then Val.vstr "Vanilla" else Val.vstr "Unknown"
  else p

/-- Pointwise combination of three equal-length columns. -/
def zip3With (g : Val → Val → Val → Val) : List Val → List Val → List Val → List Val
  | p :: ps, i :: il, b :: bl => g p i b :: zip3With g ps il bl
  | _, _, _ => []

/-- The vanilla payoff auto-classification applied to the mapped frame
(src/app.py lines 170-175), guarded by `if not standardized.empty`. -/
def applyPayoffHeuristic (f : Frame) : Frame :=
  if f.nrows ≠ 0 then
    f.updCol "payoff_type"
      (zip3With payoffStep (f.colValsN "payoff_type") (f.colValsN "index")
        (f.colValsN "bbg_ticker"))
  else f

/-- Split a character list at every dash. -/
def splitOnDash : List Char → List (List Char)
  | [] => [[]]
  | c :: cs =>
    if c = '-' then [] :: splitOnDash cs
    else
      match splitOnDash cs with
      | g :: gs => (c :: g) :: gs
      | [] => [[c]]

/-- Parse a nonempty all-digit character list as a decimal number. -/
def parseNatList (l : List Char) : Option Nat :=
  if l ≠ [] ∧ l.all Char.isDigit then
    some (l.foldl (fun acc c => acc * 10 + (c.toNat - 48)) 0)
  else none

/-- Parse ISO `YYYY-MM-DD` date text. -/
def parseIsoDate (s : String) : Option (Nat × Nat × Nat) :=
  match splitOnDash s.toList with
  | [ys, ms, ds] =>
    match parseNatList ys, parseNatList ms, parseNatList ds with
    | some y, some m, some d =>
      if 1 ≤ m ∧ m ≤ 12 ∧ 1 ≤ d ∧ d ≤ 31 ∧ y ≤ 9999 then some (y, m, d) else none
    | _, _, _ => none
  | _ => none

/-- `pd.to_datetime(·, errors="coerce")` on one cell: missing stays
missing, dates pass through, ISO date text parses, anything else becomes
missing.  (Simplification: only ISO `YYYY-MM-DD` text is modelled as
parseable, and integer cells — epoch nanoseconds in pandas — are modelled
as missing; no claim checked here depends on which non-missing values
parse.) -/
def toDatetimeCoerce : Val → Val
  | Val.na => Val.na
  | Val.vdate y m d => Val.vdate y m d
  | Val.vstr s =>
    match parseIsoDate s with
    | some (y, m, d) => Val.vdate y m d
    | none => Val.na
  | Val.vint _ => Val.na

/-- Parse a signed decimal integer literal. -/
def parseIntStr (s : String) : Option Int :=
  match s.toList with
  | '-' :: rest => (parseNatList rest).map (fun n => -(n : Int))
  | l => (parseNatList l).map (fun n => (n : Int))

/-- `pd.to_numeric(·, errors="coerce")` on one cell (numeric literals
modelled as integers). -/
def toNumericCoerce : Val → Val
  | Val.na => Val.na
  | Val.vint n => Val.vint n
  | Val.vstr s =>
    match parseIntStr s with
    | some n => Val.vint n
    | none => Val.na
  | Val.vdate _ _ _ => Val.na

/-- Date-valued canonical fields of both loaders. -/
def date_cols : List String := ["trade_date", "expiry"]

/-- Numeric canonical fields of the MARS loader. -/
def mars_numeric_cols : List String :=
  ["notional_mm_or_contracts", "strike", "cost_bp_or_pt", "cost_usd"]

/-- Numeric canonical fields of the exotics loader. -/
def exotics_numeric_cols : List String :=
  ["notional_mm", "strike1", "strike2", "cost_bp", "cost_usd"]

/-- Shallow embedding of `load_mars_data` (src/app.py lines 103-201) from
the point where the file has been read into a raw table.  The result is
the standardized DataFrame, column-major in insertion order; `[]` is the
empty DataFrame of the exception path. -/
def load_mars_data (t : RawTable) : List (String × List Val) :=
  if dupSelected t mars_columns then []
  else
    let f := (mapColumns t mars_columns).setScalar "source" (Val.vstr "MARS")
    let f := applyPayoffHeuristic f
    let f := f.coerceCols date_cols toDatetimeCoerce
    let f := f.coerceCols mars_numeric_cols toNumericCoerce
    f.cols

/-- Shallow embedding of `load_exotics_data` (src/app.py lines 203-260). -/
def load_exotics_data (t : RawTable) : List (String × List Val) :=
  if dupSelected t exotics_columns then []
  else
    let f := (mapColumns t exotics_columns).setScalar "source" (Val.vstr "Manual")
    let f := f.setScalar "payoff_type" (Val.vstr "Dual Digital")
    let f := f.coerceCols date_cols toDatetimeCoerce
    let f := f.coerceCols exotics_numeric_cols toNumericCoerce
    f.cols

/-- The values of the named column of a normalized output ([] if absent). -/
def getOutCol (out : List (String × List Val)) (name : String) : List Val :=
  match out.find? (fun c => c.1 == name) with
  | some c => c.2
  | none => []

/-- What the mapping loop produces for one canonical field: the matched
column aligned to the input's row count, or a missing-valued column. -/
def stepVals (t : RawTable) (aliases : List String) : List Val :=
  match aliasCol t aliases with
  | some vals => alignTo t.rows.length vals
  | none => List.replicate t.rows.length Val.na

-- ------------------------------
-- Flat-file persistence model (src/utils/data_storage.py)
-- ------------------------------

/-- A trade record: a Python dict from field name to cell value.  Keys
are unique in a dict; the model reads the first occurrence. -/
abbrev TradeRec := List (String × Val)

/-- One persisted flat file: the parsed text table (header names with
column-major text cells), or a file pandas cannot parse. -/
inductive FileData where
  | malformed : FileData
  | csv : List (String × List String) → FileData
  deriving DecidableEq, Repr

/-- The two persisted files (`data/live_trades.csv` and
`data/trade_history.csv`); `none` means the file is absent. -/
structure FileStore where
  live : Option FileData
  hist : Option FileData
  deriving DecidableEq, Repr

/-- `trade_copy = trade.copy(); trade_copy[k] = val`: overwrite the key
in place when present, otherwise append it. -/
def setKey (r : TradeRec) (k : String) (v : Val) : TradeRec :=
  if (r.map Prod.fst).contains k then
    r.map (fun kv => if kv.1 = k then (kv.1, v) else kv)
  else r ++ [(k, v)]

/-- Keys in order of first appearance across the records — the column
order `pd.DataFrame(list_of_dicts)` produces. -/
def unionKeys (rs : List TradeRec) : List String :=
  rs.foldl
    (fun acc r =>
      r.foldl (fun acc2 kv => if acc2.contains kv.1 then acc2 else acc2 ++ [kv.1]) acc)
    []

/-- `pd.DataFrame(list_of_dicts)`: one column per key, rows aligned by
key lookup, absent keys filling with `NaN`. -/
def buildDF (rs : List TradeRec) : List (String × List Val) :=
  (unionKeys rs).map (fun k => (k, rs.map (fun r => (r.lookup k).getD Val.na)))

/-- `str()` of one cell as written by `to_csv` (a missing cell writes as
the empty field; dates write in ISO form). -/
def csvCell : Val → String
  | Val.na => ""
  | Val.vstr s => s
  | Val.vint n => toString n
  | Val.vdate y m d => padNum 4 y ++ "-" ++ padNum 2 m ++ "-" ++ padNum 2 d

/-- pandas `read_csv` default `na_values`. -/
def naStrings : List String :=
  ["", "#N/A", "#N/A N/A", "#NA", "-1.#IND", "-1.#QNAN", "-NaN", "-nan",
   "1.#IND", "1.#QNAN", "<NA>", "N/A", "NA", "NULL", "NaN", "None", "n/a", "nan", "null"]

/-- `read_csv` column-wise type inference (numeric literals modelled as
integers): a column all of whose non-missing cells are integer literals
reads back numeric; otherwise its cells read back as text; `na_values`
cells read as missing either way. -/
def readCol (cells : List String) : List Val :=
  if cells.all (fun s => naStrings.contains s || (parseIntStr s).isSome) then
    cells.map (fun s =>
      if naStrings.contains s then Val.na
      else
        match parseIntStr s with
        | some n => Val.vint n
        | none => Val.na)
  else
    cells.map (fun s => if naStrings.contains s then Val.na else Val.vstr s)

/-- The live trades as concatenated for saving: vanillas tagged
`"Vanilla"`, then exotics tagged `"Exotic"`
(src/utils/data_storage.py lines 31-43). -/
def taggedTrades (vanilla_trades exotic_trades : List TradeRec) : List TradeRec :=
  vanilla_trades.map (fun r => setKey r "trade_type" (Val.vstr "Vanilla"))
    ++ exotic_trades.map (fun r => setKey r "trade_type" (Val.vstr "Exotic"))

/-- `save_live_trades` (src/utils/data_storage.py lines 25-56): tag,
concatenate, and overwrite the live file with the serialized DataFrame;
with no trades at all an empty (no-column) file is still written. -/
def save_live_trades (vanilla_trades exotic_trades : List TradeRec) (fs : FileStore) :
    FileStore :=
  let all_trades := taggedTrades vanilla_trades exotic_trades
  if all_trades ≠ [] then
    { fs with
      live := some (FileData.csv
        ((buildDF all_trades).map (fun c => (c.1, c.2.map csvCell)))) }
  else
    { fs with live := some (FileData.csv []) }

/-- `pd.to_datetime(column).dt.date` on one reloaded cell — there is no
`errors="coerce"` here, so unparseable text raises (signalled by `none`).
Missing stays missing (`NaT`); ISO text parses back to a date.  (Integer
cells — epoch nanoseconds in pandas — are modelled as missing; `save`
writes dates in ISO text, so no claim exercises that path.) -/
def toDatetimeStrict : Val → Option Val
  | Val.na => some Val.na
  | Val.vdate y m d => some (Val.vdate y m d)
  | Val.vstr s =>
    match parseIsoDate s with
    | some (y, m, d) => some (Val.vdate y m d)
    | none => none
  | Val.vint _ => some Val.na

/-- Reparse the named date columns, failing when any cell fails. -/
def parseDateColumns (names : List String) :
    List (String × List Val) → Option (List (String × List Val))
  | [] => some []
  | c :: rest =>
    match
      (if names.contains c.1 then (c.2.mapM toDatetimeStrict).map (fun vs => (c.1, vs))
       else some c),
      parseDateColumns names rest with
    | some c2, some r2 => some (c2 :: r2)
    | _, _ => none

/-- Number of rows of a column-major DataFrame. -/
def dfNRows (df : List (String × List Val)) : Nat :=
  match df with
  | [] => 0
  | c :: _ => c.2.length

/-- `to_dict("records")`: row `i` as a record over every column. -/
def dfRecords (df : List (String × List Val)) : List TradeRec :=
  (List.range (dfNRows df)).map (fun i => df.map (fun c => (c.1, c.2.getD i Val.na)))

/-- `load_live_trades` (src/utils/data_storage.py lines 76-107): a
missing file returns two empty collections, and so does any exception —
an unparseable file, an empty file (`read_csv` raises `EmptyDataError` on
a file with no columns), a missing `trade_type` column (`KeyError`), or
an unparseable date (`to_datetime` raises).  Otherwise dates are reparsed
and the frame is split on the `trade_type` discriminator. -/
def load_live_trades (fs : FileStore) : List TradeRec × List TradeRec :=
  match fs.live with
  | none => ([], [])
  | some FileData.malformed => ([], [])
  | some (FileData.csv cols) =>
    if cols = [] then ([], [])
    else
      let df := cols.map (fun c => (c.1, readCol c.2))
      if dfNRows df = 0 then ([], [])
      else
        match parseDateColumns ["trade_date", "expiry"] df with
        | none => ([], [])
        | some df2 =>
          if (df2.map Prod.fst).contains "trade_type" then
            let records := dfRecords df2
            (records.filter (fun r => decide (r.lookup "trade_type" = some (Val.vstr "Vanilla"))),
             records.filter (fun r => decide (r.lookup "trade_type" = some (Val.vstr "Exotic"))))
          else ([], [])

/-- `load_trade_history` (src/utils/data_storage.py lines 109-135): the
same failure handling as the live loader, with `unwind_date` also
reparsed and no discriminator split. -/
def load_trade_history (fs : FileStore) : List TradeRec :=
  match fs.hist with
  | none => []
  | some FileData.malformed => []
  | some (FileData.csv cols) =>
    if cols = [] then []
    else
      let df := cols.map (fun c => (c.1, readCol c.2))
      if dfNRows df = 0 then []
      else
        match parseDateColumns ["trade_date", "expiry", "unwind_date"] df with
        | none => []
        | some df2 => dfRecords df2

/-- The record a round trip reproduces for one saved trade: the union
column set in file order, the discriminator tag, the original fields by
lookup and `NaN` for columns contributed by other trades. -/
def expandRec (cols : List String) (tag : String) (r : TradeRec) : TradeRec :=
  cols.map (fun k =>
    (k, if k = "trade_type" then Val.vstr tag else (r.lookup k).getD Val.na))

/-- Column-level CSV round-trip stability for the live file: a date
column must survive write → read → `to_datetime`, any other column must
survive write → read unchanged. -/
def liveStableCol (c : String × List Val) : Bool :=
  if (["trade_date", "expiry"] : List String).contains c.1 then
    decide ((readCol (c.2.map csvCell)).mapM toDatetimeStrict = some c.2)
  else decide (readCol (c.2.map csvCell) = c.2)

-- ------------------------------
-- Reconciliation lemmas
-- ------------------------------

theorem outIds_append (l₁ l₂ : List RRow) :
    outIds (l₁ ++ l₂) = outIds l₁ ∪ outIds l₂ := by
  simp [outIds]

theorem outIds_filter (l : List RRow) (S : Finset String) :
    outIds (l.filter (fun r => decide (r.trade_id.astype_str ∈ S))) = outIds l ∩ S := by
  ext x
  simp only [outIds, List.mem_toFinset, List.mem_map, List.mem_filter,
    decide_eq_true_eq, Finset.mem_inter]
  constructor
  · rintro ⟨a, ⟨ha, hS⟩, hx⟩
    exact ⟨⟨a, ha, hx⟩, hx ▸ hS⟩
  · rintro ⟨⟨a, ha, hx⟩, hxS⟩
    exact ⟨a, ⟨ha, hx ▸ hxS⟩, hx⟩

theorem dfIds_subset_outIds (df : TradeDF) : dfIds df ⊆ outIds df.rows := by
  intro x hx
  rw [dfIds] at hx
  split at hx
  · rw [List.mem_toFinset, List.mem_filterMap] at hx
    obtain ⟨r, hr, hsome⟩ := hx
    by_cases h : r.trade_id = Val.na
    · simp [h] at hsome
    · simp only [h, if_false, Option.some.injEq] at hsome
      exact List.mem_toFinset.mpr (List.mem_map.mpr ⟨r, hr, hsome⟩)
  · simp at hx

theorem dfIds_hasTradeId {df : TradeDF} (h : dfIds df ≠ ∅) : df.hasTradeId = true := by
  by_contra hb
  apply h
  rw [dfIds, if_neg]
  intro hc
  exact hb hc.2

theorem dfIds_of_no_column {df : TradeDF} (h : df.hasTradeId = false) : dfIds df = ∅ := by
  rw [dfIds, if_neg]
  intro hc
  rw [h] at hc
  exact Bool.false_ne_true hc.2

theorem dfIds_of_empty {df : TradeDF} (h : df.rows = []) : dfIds df = ∅ := by
  rw [dfIds, if_neg]
  intro hc
  exact hc.1 h

theorem mem_dfIds_of_row {df : TradeDF} {r : RRow} (hr : r ∈ df.rows)
    (hna : r.trade_id ≠ Val.na) (hcol : df.hasTradeId = true) :
    r.trade_id.astype_str ∈ dfIds df := by
  rw [dfIds, if_pos ⟨List.ne_nil_of_mem hr, hcol⟩, List.mem_toFinset, List.mem_filterMap]
  exact ⟨r, hr, by simp [hna]⟩

/-- `filter (· ∈ ∅)` produces nothing. -/
theorem filter_mem_empty (l : List RRow) :
    l.filter (fun r => decide (r.trade_id.astype_str ∈ (∅ : Finset String))) = [] := by
  simp

/-- The matched output of `perform_recon`, with all the code's guards
collapsed: MARS rows first, then manual rows, each side keeping input
order, filtered by membership of the string-cast id in `dfIds ∩ dfIds`. -/
theorem recon_matched_list (A B : TradeDF) :
    (perform_recon A B).matched
      = A.rows.filter (fun r => decide (r.trade_id.astype_str ∈ dfIds A ∩ dfIds B))
        ++ B.rows.filter (fun r => decide (r.trade_id.astype_str ∈ dfIds A ∩ dfIds B)) := by
  rw [perform_recon]
  split
  · next h =>
    rw [h.1, h.2]
    simp
  · next =>
    simp only
    split
    · rfl
    · next h =>
      by_cases hM : dfIds A ∩ dfIds B = ∅
      · rw [hM, filter_mem_empty, filter_mem_empty]
        rfl
      · exfalso
        apply h
        refine ⟨hM, dfIds_hasTradeId ?_, dfIds_hasTradeId ?_⟩
        · intro hA
          exact hM (Finset.subset_empty.mp (hA ▸ Finset.inter_subset_left))
        · intro hB
          exact hM (Finset.subset_empty.mp (hB ▸ Finset.inter_subset_right))

/-- The only-MARS output of `perform_recon`, guards collapsed. -/
theorem recon_only_mars_list (A B : TradeDF) :
    (perform_recon A B).only_mars
      = A.rows.filter (fun r => decide (r.trade_id.astype_str ∈ dfIds A \ dfIds B)) := by
  rw [perform_recon]
  split
  · next h =>
    rw [h.1]
    simp
  · next =>
    simp only
    split
    · rfl
    · next h =>
      by_cases hM : dfIds A \ dfIds B = ∅
      · rw [hM, filter_mem_empty]
      · exfalso
        apply h
        refine ⟨hM, dfIds_hasTradeId ?_⟩
        intro hA
        exact hM (Finset.subset_empty.mp (hA ▸ Finset.sdiff_subset))

/-- The only-manual output of `perform_recon`, guards collapsed. -/
theorem recon_only_manual_list (A B : TradeDF) :
    (perform_recon A B).only_manual
      = B.rows.filter (fun r => decide (r.trade_id.astype_str ∈ dfIds B \ dfIds A)) := by
  rw [perform_recon]
  split
  · next h =>
    rw [h.2]
    simp
  · next =>
    simp only
    split
    · rfl
    · next h =>
      by_cases hM : dfIds B \ dfIds A = ∅
      · rw [hM, filter_mem_empty]
      · exfalso
        apply h
        refine ⟨hM, dfIds_hasTradeId ?_⟩
        intro hB
        exact hM (Finset.subset_empty.mp (hB ▸ Finset.sdiff_subset))

theorem recon_matched_ids (A B : TradeDF) :
    outIds (perform_recon A B).matched = dfIds A ∩ dfIds B := by
  rw [recon_matched_list, outIds_append, outIds_filter, outIds_filter]
  have hA : dfIds A ∩ dfIds B ⊆ outIds A.rows :=
    subset_trans Finset.inter_subset_left (dfIds_subset_outIds A)
  have hB : dfIds A ∩ dfIds B ⊆ outIds B.rows :=
    subset_trans Finset.inter_subset_right (dfIds_subset_outIds B)
  rw [Finset.inter_eq_right.mpr hA, Finset.inter_eq_right.mpr hB, Finset.union_self]

theorem recon_only_mars_ids (A B : TradeDF) :
    outIds (perform_recon A B).only_mars = dfIds A \ dfIds B := by
  rw [recon_only_mars_list, outIds_filter]
  exact Finset.inter_eq_right.mpr
    (subset_trans Finset.sdiff_subset (dfIds_subset_outIds A))

theorem recon_only_manual_ids (A B : TradeDF) :
    outIds (perform_recon A B).only_manual = dfIds B \ dfIds A := by
  rw [recon_only_manual_list, outIds_filter]
  exact Finset.inter_eq_right.mpr
    (subset_trans Finset.sdiff_subset (dfIds_subset_outIds B))

-- ------------------------------
-- Claim theorems: reconciliation
-- ------------------------------

/-- C1: the reconciliation output of `perform_recon` partitions the
combined id universe: the string-cast id sets of `matched`, `only_mars`
and `only_manual` are `A ∩ B`, `A − B` and `B − A` respectively, their
union is the union of both sides' non-missing string-cast id sets, and
they are pairwise disjoint. -/
theorem C1_recon_partition (A B : TradeDF) :
    outIds (perform_recon A B).matched = dfIds A ∩ dfIds B
    ∧ outIds (perform_recon A B).only_mars = dfIds A \ dfIds B
    ∧ outIds (perform_recon A B).only_manual = dfIds B \ dfIds A
    ∧ outIds (perform_recon A B).matched ∪ outIds (perform_recon A B).only_mars
        ∪ outIds (perform_recon A B).only_manual = dfIds A ∪ dfIds B
    ∧ Disjoint (outIds (perform_recon A B).matched) (outIds (perform_recon A B).only_mars)
    ∧ Disjoint (outIds (perform_recon A B).matched) (outIds (perform_recon A B).only_manual)
    ∧ Disjoint (outIds (perform_recon A B).only_mars) (outIds (perform_recon A B).only_manual) := by
  rw [recon_matched_ids, recon_only_mars_ids, recon_only_manual_ids]
  refine ⟨rfl, rfl, rfl, ?_, ?_, ?_, ?_⟩
  · ext x
    simp only [Finset.mem_union, Finset.mem_inter, Finset.mem_sdiff]
    tauto
  · rw [Finset.disjoint_left]
    intro x hx hy
    simp only [Finset.mem_inter, Finset.mem_sdiff] at hx hy
    exact hy.2 hx.2
  · rw [Finset.disjoint_left]
    intro x hx hy
    simp only [Finset.mem_inter, Finset.mem_sdiff] at hx hy
    exact hy.2 hx.1
  · rw [Finset.disjoint_left]
    intro x hx hy
    simp only [Finset.mem_sdiff] at hx hy
    exact hx.2 hy.1

/-- C7: reconciliation is commutative in validation though not in role
labeling: the matched outputs of `perform_recon A B` and
`perform_recon B A` carry the same set of string-cast ids, and the
only-first-side partition of `perform_recon A B` equals the
only-second-side partition of `perform_recon B A`. -/
theorem C7_recon_commutative (A B : TradeDF) :
    outIds (perform_recon A B).matched = outIds (perform_recon B A).matched
    ∧ (perform_recon A B).only_mars = (perform_recon B A).only_manual := by
  constructor
  · rw [recon_matched_ids, recon_matched_ids, Finset.inter_comm]
  · rw [recon_only_mars_list, recon_only_manual_list]

/-- C10: in the matched output, every MARS row with a matched string-cast
id appears before every manual row, each side keeps its input order, and
all rows sharing a duplicated matched id are kept: the matched output is
exactly the order-preserving filter of the MARS rows followed by the
order-preserving filter of the manual rows. -/
theorem C10_matched_order (A B : TradeDF) :
    (perform_recon A B).matched
      = A.rows.filter (fun r => decide (r.trade_id.astype_str ∈ dfIds A ∩ dfIds B))
        ++ B.rows.filter (fun r => decide (r.trade_id.astype_str ∈ dfIds A ∩ dfIds B)) :=
  recon_matched_list A B

/-- C2 counterexample: a record whose `trade_id` is missing CAN appear in
an output of `perform_recon`.  The row filters cast with `str()`, under
which a missing id becomes the string `"nan"`; when another record's
genuine id is the literal string `"nan"`, the missing-id row is swept into
the same partition.  Here the MARS side holds a row with id `"nan"` and a
row with a missing id, the manual side is a nonempty frame with no ids:
the missing-id row lands in `only_mars`. -/
theorem C2_missing_id_cex :
    RRow.mk Val.na 1 ∈ (perform_recon (TradeDF.mk true [RRow.mk (Val.vstr "nan") 0, RRow.mk Val.na 1])
        (TradeDF.mk true [RRow.mk Val.na 2])).only_mars
    ∧ (RRow.mk Val.na 1).trade_id = Val.na := by
  constructor
  · rw [recon_only_mars_list]
    decide
  · rfl

/-- C2 (amended): provided the string `"nan"` is not among either side's
non-missing string-cast ids, a record whose `trade_id` is missing never
appears in any of the three outputs of `perform_recon`; id equality is
decided after casting values to string, so a numeric and a string id of
equal printed form are matched; and a collection lacking the `trade_id`
column contributes an empty id set and no rows, rather than a fault. -/
theorem C2_amended_missing_id (A B : TradeDF)
    (hnan : "nan" ∉ dfIds A ∪ dfIds B) :
    (∀ r : RRow,
        r ∈ (perform_recon A B).matched ∨ r ∈ (perform_recon A B).only_mars
          ∨ r ∈ (perform_recon A B).only_manual → r.trade_id ≠ Val.na)
    ∧ (A.hasTradeId = false →
        dfIds A = ∅ ∧ (perform_recon A B).matched = [] ∧ (perform_recon A B).only_mars = [])
    ∧ (∀ rA rB : RRow, rA ∈ A.rows → rB ∈ B.rows →
        A.hasTradeId = true → B.hasTradeId = true →
        rA.trade_id ≠ Val.na → rB.trade_id ≠ Val.na →
        rA.trade_id.astype_str = rB.trade_id.astype_str →
        rA.trade_id.astype_str ∈ outIds (perform_recon A B).matched) := by
  refine ⟨?_, ?_, ?_⟩
  · intro r hr hna
    have hmem : r.trade_id.astype_str ∈ dfIds A ∪ dfIds B := by
      rcases hr with h | h | h
      · rw [recon_matched_list] at h
        rcases List.mem_append.mp h with h' | h' <;>
        · have := (List.mem_filter.mp h').2
          rw [decide_eq_true_eq] at this
          exact Finset.mem_union.mpr (Or.inl (Finset.mem_of_mem_inter_left this))
      · rw [recon_only_mars_list] at h
        have := (List.mem_filter.mp h).2
        rw [decide_eq_true_eq] at this
        exact Finset.mem_union.mpr (Or.inl (Finset.mem_sdiff.mp this).1)
      · rw [recon_only_manual_list] at h
        have := (List.mem_filter.mp h).2
        rw [decide_eq_true_eq] at this
        exact Finset.mem_union.mpr (Or.inr (Finset.mem_sdiff.mp this).1)
    rw [hna] at hmem
    exact hnan hmem
  · intro hcol
    have hA : dfIds A = ∅ := dfIds_of_no_column hcol
    refine ⟨hA, ?_, ?_⟩
    · rw [recon_matched_list, hA, Finset.empty_inter, filter_mem_empty, filter_mem_empty]
      rfl
    · rw [recon_only_mars_list, hA, Finset.empty_sdiff, filter_mem_empty]
  · intro rA rB hrA hrB hcA hcB hnaA hnaB hcast
    rw [recon_matched_ids]
    refine Finset.mem_inter.mpr ⟨mem_dfIds_of_row hrA hnaA hcA, ?_⟩
    rw [hcast]
    exact mem_dfIds_of_row hrB hnaB hcB

/-- C2 amended, witnessed: a MARS string id `"7"` and a manual numeric id
`7` (equal printed form) are matched, with `"nan"` absent from both id
sets. -/
theorem C2_amended_missing_id_witness :
    "7" ∈ outIds (perform_recon (TradeDF.mk true [RRow.mk (Val.vstr "7") 0])
        (TradeDF.mk true [RRow.mk (Val.vint 7) 0])).matched :=
  (C2_amended_missing_id
    (TradeDF.mk true [RRow.mk (Val.vstr "7") 0])
    (TradeDF.mk true [RRow.mk (Val.vint 7) 0]) (by decide)).2.2
    (RRow.mk (Val.vstr "7") 0) (RRow.mk (Val.vint 7) 0)
    (by decide) (by decide) rfl rfl (by decide) (by decide) rfl

-- ------------------------------
-- Normalizer lemmas
-- ------------------------------

theorem colVals_length (t : RawTable) (i : Nat) :
    (t.colVals i).length = t.rows.length := by
  simp [RawTable.colVals]

theorem aliasCol_length {t : RawTable} {al : List String} {vals : List Val}
    (h : aliasCol t al = some vals) : vals.length = t.rows.length := by
  rw [aliasCol] at h
  obtain ⟨a, -, hfa⟩ := Option.map_eq_some'.mp h
  rw [← hfa]
  exact colVals_length t _

theorem alignTo_length (n : Nat) (vals : List Val) : (alignTo n vals).length = n := by
  simp [alignTo]

theorem alignTo_eq_self {n : Nat} {vals : List Val} (h : vals.length = n) :
    alignTo n vals = vals := by
  subst h
  apply List.ext_getElem
  · simp [alignTo]
  · intro i h1 h2
    simp [alignTo]
    rw [List.getElem?_eq_getElem h2]
    rfl

theorem stepVals_length (t : RawTable) (al : List String) :
    (stepVals t al).length = t.rows.length := by
  rw [stepVals]
  cases h : aliasCol t al with
  | none => simp
  | some vals => simp [alignTo_length]

theorem stepVals_of_none {t : RawTable} {al : List String} (h : aliasCol t al = none) :
    stepVals t al = List.replicate t.rows.length Val.na := by
  rw [stepVals, h]

theorem stepVals_of_some {t : RawTable} {al : List String} {vals : List Val}
    (h : aliasCol t al = some vals) :
    stepVals t al = alignTo t.rows.length vals := by
  rw [stepVals, h]

theorem stepVals_nil {t : RawTable} (hn : t.rows.length = 0) (al : List String) :
    stepVals t al = [] :=
  List.eq_nil_of_length_eq_zero ((stepVals_length t al).trans hn)

theorem zip3With_length (g : Val → Val → Val → Val) (a b c : List Val) :
    (zip3With g a b c).length = min a.length (min b.length c.length) := by
  induction a generalizing b c with
  | nil => cases b <;> cases c <;> simp [zip3With]
  | cons x xs ih =>
    cases b with
    | nil => simp [zip3With]
    | cons y ys =>
      cases c with
      | nil => simp [zip3With]
      | cons z zs =>
        simp only [zip3With, List.length_cons, ih]
        omega

theorem foldl_from_good (t : RawTable) (schema : List (String × List String)) :
    ∀ f : Frame, f.nrows = t.rows.length →
    schema.foldl (mapStep t) f
      = ⟨f.cols ++ schema.map (fun p => (p.1, stepVals t p.2)), t.rows.length⟩ := by
  induction schema with
  | nil =>
    intro f hf
    rw [List.foldl_nil, List.map_nil, List.append_nil, ← hf]
  | cons p rest ih =>
    intro f hf
    rw [List.foldl_cons]
    have hstep : mapStep t f p = ⟨f.cols ++ [(p.1, stepVals t p.2)], t.rows.length⟩ := by
      rw [mapStep, stepVals]
      cases h : aliasCol t p.2 with
      | none => rw [Frame.setScalar, hf]
      | some vals =>
        have hv : vals.length = t.rows.length := aliasCol_length h
        have hcond : ¬(f.nrows = 0 ∧ vals.length ≠ 0) := by
          rintro ⟨h0, hne⟩
          exact hne (hv.trans (hf ▸ h0))
        simp only [Frame.setSeries, if_neg hcond]
        rw [hf]
    rw [hstep, ih _ rfl]
    simp

theorem mapColumns_gen (t : RawTable) (schema : List (String × List String)) :
    ∀ names : List String,
    ((∃ p ∈ schema, aliasCol t p.2 ≠ none) ∨ t.rows.length = 0) →
    schema.foldl (mapStep t) ⟨names.map (fun s => (s, List.replicate 0 Val.na)), 0⟩
      = ⟨names.map (fun s => (s, List.replicate t.rows.length Val.na))
          ++ schema.map (fun p => (p.1, stepVals t p.2)), t.rows.length⟩ := by
  induction schema with
  | nil =>
    intro names h
    have hn : t.rows.length = 0 := by
      rcases h with h | h
      · simp at h
      · exact h
    rw [List.foldl_nil, hn, List.map_nil, List.append_nil]
  | cons p rest ih =>
    intro names h
    rw [List.foldl_cons]
    cases hac : aliasCol t p.2 with
    | none =>
      have hstep : mapStep t ⟨names.map (fun s => (s, List.replicate 0 Val.na)), 0⟩ p
          = ⟨(names ++ [p.1]).map (fun s => (s, List.replicate 0 Val.na)), 0⟩ := by
        rw [mapStep, hac, Frame.setScalar]
        simp
      rw [hstep, ih (names ++ [p.1]) ?side]
      case side =>
        rcases h with h | h
        · obtain ⟨q, hq, hne⟩ := h
          rcases List.mem_cons.mp hq with rfl | hq'
          · exact absurd hac hne
          · exact Or.inl ⟨q, hq', hne⟩
        · exact Or.inr h
      simp [stepVals_of_none hac]
    | some vals =>
      have hv : vals.length = t.rows.length := aliasCol_length hac
      have hsv : stepVals t p.2 = alignTo t.rows.length vals := stepVals_of_some hac
      have hstep : mapStep t ⟨names.map (fun s => (s, List.replicate 0 Val.na)), 0⟩ p
          = ⟨names.map (fun s => (s, List.replicate t.rows.length Val.na))
              ++ [(p.1, stepVals t p.2)], t.rows.length⟩ := by
        rw [mapStep, hac]
        simp only [Frame.setSeries]
        split
        · next _ =>
          rw [hsv, alignTo_eq_self hv, hv]
          simp [List.map_map, Function.comp]
        · next hfalse =>
          have hn0 : t.rows.length = 0 := by
            by_contra hn
            exact hfalse ⟨by trivial, by rw [hv]; exact hn⟩
          rw [hsv, hn0]
      rw [hstep, foldl_from_good t rest _ rfl]
      simp

theorem mapColumns_spec (t : RawTable) (schema : List (String × List String))
    (h : (∃ p ∈ schema, aliasCol t p.2 ≠ none) ∨ t.rows.length = 0) :
    mapColumns t schema
      = ⟨schema.map (fun p => (p.1, stepVals t p.2)), t.rows.length⟩ := by
  have hg := mapColumns_gen t schema [] h
  simpa [mapColumns] using hg

/-- `load_mars_data`, fully characterized: under the no-duplicate-label
hypothesis and the "some field matched or no rows" hypothesis, the output
is the canonical columns in schema order (dates and numerics coerced, the
payoff column run through the vanilla heuristic) plus the `source` tag. -/
theorem load_mars_data_spec (t : RawTable)
    (h1 : dupSelected t mars_columns = false)
    (h2 : (∃ p ∈ mars_columns, aliasCol t p.2 ≠ none) ∨ t.rows.length = 0) :
    load_mars_data t =
      [("trade_date", (stepVals t ["trade_date", "date", "trade date"]).map toDatetimeCoerce),
       ("trade_id", stepVals t ["trade_id", "tradeid", "id", "trade id"]),
       ("book", stepVals t ["book", "portfolio"]),
       ("strategy", stepVals t ["strategy", "strat"]),
       ("side", stepVals t ["side", "direction"]),
       ("index", stepVals t ["index", "underlying", "ticker"]),
       ("bbg_ticker", stepVals t ["bbg_ticker", "bloomberg_ticker", "bbg ticker", "ticker"]),
       ("notional_mm_or_contracts",
         (stepVals t ["notional_mm_or_contracts", "notional", "size"]).map toNumericCoerce),
       ("expiry", (stepVals t ["expiry", "expiration", "maturity"]).map toDatetimeCoerce),
       ("payoff_type",
         zip3With payoffStep (stepVals t ["payoff_type", "payoff", "product_type"])
           (stepVals t ["index", "underlying", "ticker"])
           (stepVals t ["bbg_ticker", "bloomberg_ticker", "bbg ticker", "ticker"])),
       ("strike", (stepVals t ["strike", "strike_price"]).map toNumericCoerce),
       ("cost_bp_or_pt", (stepVals t ["cost_bp_or_pt", "cost_bp", "premium_bp"]).map toNumericCoerce),
       ("cost_usd", (stepVals t ["cost_usd", "cost", "premium_usd"]).map toNumericCoerce),
       ("source", List.replicate t.rows.length (Val.vstr "MARS"))] := by
  have hmap := mapColumns_spec t mars_columns h2
  by_cases hn : t.rows.length = 0
  · simp only [load_mars_data, h1, Bool.false_eq_true, if_false]
    rw [hmap]
    simp [mars_columns, Frame.setScalar, applyPayoffHeuristic, Frame.updCol, Frame.colValsN,
      Frame.coerceCols, date_cols, mars_numeric_cols, stepVals_nil hn, hn, zip3With]
  · simp only [load_mars_data, h1, Bool.false_eq_true, if_false]
    rw [hmap]
    simp [mars_columns, Frame.setScalar, applyPayoffHeuristic, hn, Frame.updCol, Frame.colValsN,
      Frame.coerceCols, date_cols, mars_numeric_cols, List.find?]

/-- `load_exotics_data`, fully characterized: canonical columns in schema
order (dates and numerics coerced) plus the `source` and `payoff_type`
tags. -/
theorem load_exotics_data_spec (t : RawTable)
    (h1 : dupSelected t exotics_columns = false)
    (h2 : (∃ p ∈ exotics_columns, aliasCol t p.2 ≠ none) ∨ t.rows.length = 0) :
    load_exotics_data t =
      [("trade_date", (stepVals t ["trade_date", "date", "trade date"]).map toDatetimeCoerce),
       ("trade_id", stepVals t ["trade_id", "tradeid", "id", "trade id"]),
       ("book", stepVals t ["book", "portfolio"]),
       ("strategy", stepVals t ["strategy", "strat"]),
       ("side", stepVals t ["side", "direction"]),
       ("notional_mm", (stepVals t ["notional_mm", "notional", "size"]).map toNumericCoerce),
       ("expiry", (stepVals t ["expiry", "expiration", "maturity"]).map toDatetimeCoerce),
       ("index1", stepVals t ["index1", "underlying1", "ticker1"]),
       ("cond1", stepVals t ["cond1", "condition1", "barrier_type1"]),
       ("strike1", (stepVals t ["strike1", "strike_1", "barrier1"]).map toNumericCoerce),
       ("index2", stepVals t ["index2", "underlying2", "ticker2"]),
       ("cond2", stepVals t ["cond2", "condition2", "barrier_type2"]),
       ("strike2", (stepVals t ["strike2", "strike_2", "barrier2"]).map toNumericCoerce),
       ("logic", stepVals t ["logic", "and_or", "operator"]),
       ("cost_bp", (stepVals t ["cost_bp", "premium_bp", "cost"]).map toNumericCoerce),
       ("cost_usd", (stepVals t ["cost_usd", "premium_usd", "cost_dollars"]).map toNumericCoerce),
       ("source", List.replicate t.rows.length (Val.vstr "Manual")),
       ("payoff_type", List.replicate t.rows.length (Val.vstr "Dual Digital"))] := by
  have hmap := mapColumns_spec t exotics_columns h2
  simp only [load_exotics_data, h1, Bool.false_eq_true, if_false]
  rw [hmap]
  simp [exotics_columns, Frame.setScalar, Frame.coerceCols, date_cols, exotics_numeric_cols]

-- ------------------------------
-- Claim theorems: column normalizer
-- ------------------------------

/-- C3 counterexample: on the one-row input whose only header is
`"Ticker"` with value `"SPY US Equity"`, the canonical `index` field —
which is neither `bbg_ticker` nor `payoff_type` — is populated with
`"SPY US Equity"`, not missing-valued: the `"ticker"` alias is accepted
for both `index` and `bbg_ticker`, so "every other canonical field
missing-valued" fails. -/
theorem C3_scenario_cex :
    getOutCol (load_mars_data (RawTable.mk ["Ticker"] [[Val.vstr "SPY US Equity"]])) "index"
      = [Val.vstr "SPY US Equity"]
    ∧ getOutCol (load_mars_data (RawTable.mk ["Ticker"] [[Val.vstr "SPY US Equity"]])) "index"
      ≠ [Val.na] := by
  constructor
  · decide
  · decide

/-- C3 (amended): on the one-row input whose only header is `"Ticker"`
with value `"SPY US Equity"` and no payoff column, the output row has
`bbg_ticker = "SPY US Equity"`, `payoff_type = "Vanilla"` via the
substring heuristic, and — because the `"ticker"` alias also maps to the
`index` field — `index = "SPY US Equity"` as well; every other canonical
field is missing-valued. -/
theorem C3_scenario_amended :
    load_mars_data (RawTable.mk ["Ticker"] [[Val.vstr "SPY US Equity"]]) =
      [("trade_date", [Val.na]),
       ("trade_id", [Val.na]),
       ("book", [Val.na]),
       ("strategy", [Val.na]),
       ("side", [Val.na]),
       ("index", [Val.vstr "SPY US Equity"]),
       ("bbg_ticker", [Val.vstr "SPY US Equity"]),
       ("notional_mm_or_contracts", [Val.na]),
       ("expiry", [Val.na]),
       ("payoff_type", [Val.vstr "Vanilla"]),
       ("strike", [Val.na]),
       ("cost_bp_or_pt", [Val.na]),
       ("cost_usd", [Val.na]),
       ("source", [Val.vstr "MARS"])] := by
  decide

/-- C4 counterexample: a one-row input none of whose headers matches any
canonical alias.  pandas assigns every canonical field as a scalar over
the empty index of the fresh `standardized` frame, so every output column
has zero rows while the input has one: "the same row count as the input"
fails. -/
theorem C4_rowcount_cex :
    ∃ c ∈ load_mars_data (RawTable.mk ["foo"] [[Val.vint 1]]),
      c.2.length ≠ (RawTable.mk ["foo"] [[Val.vint 1]]).rows.length := by
  decide

/-- C4 (amended): provided no matched header label is duplicated after
normalization and — forced by the counterexample — at least one canonical
field's alias matches some normalized input header (or the input has zero
rows), both normalizers return exactly the canonical column set in schema
order, every output column carries exactly one entry per input row, and
every canonical field with no matching alias — other than `payoff_type`,
which the vanilla heuristic fills — is entirely missing-valued. -/
theorem C4_amended_normalizer (t : RawTable)
    (hd1 : dupSelected t mars_columns = false)
    (hd2 : dupSelected t exotics_columns = false)
    (hm : (∃ p ∈ mars_columns, aliasCol t p.2 ≠ none) ∨ t.rows.length = 0)
    (he : (∃ p ∈ exotics_columns, aliasCol t p.2 ≠ none) ∨ t.rows.length = 0) :
    ((load_mars_data t).map Prod.fst = mars_columns.map Prod.fst ++ ["source"])
    ∧ (∀ c ∈ load_mars_data t, c.2.length = t.rows.length)
    ∧ (∀ p ∈ mars_columns, p.1 ≠ "payoff_type" → aliasCol t p.2 = none →
        (p.1, List.replicate t.rows.length Val.na) ∈ load_mars_data t)
    ∧ ((load_exotics_data t).map Prod.fst
        = exotics_columns.map Prod.fst ++ ["source", "payoff_type"])
    ∧ (∀ c ∈ load_exotics_data t, c.2.length = t.rows.length)
    ∧ (∀ p ∈ exotics_columns, aliasCol t p.2 = none →
        (p.1, List.replicate t.rows.length Val.na) ∈ load_exotics_data t) := by
  rw [load_mars_data_spec t hd1 hm, load_exotics_data_spec t hd2 he]
  refine ⟨by simp [mars_columns], ?_, ?_, by simp [exotics_columns], ?_, ?_⟩
  · intro c hc
    simp only [List.mem_cons, List.not_mem_nil, or_false] at hc
    rcases hc with rfl | rfl | rfl | rfl | rfl | rfl | rfl | rfl | rfl | rfl | rfl | rfl
      | rfl | rfl
    all_goals simp [stepVals_length, zip3With_length]
  · intro p hp hne hnone
    simp only [mars_columns, List.mem_cons, List.not_mem_nil, or_false] at hp
    rcases hp with rfl | rfl | rfl | rfl | rfl | rfl | rfl | rfl | rfl | rfl | rfl | rfl | rfl
    all_goals
      first
      | exact absurd rfl hne
      | simp [stepVals_of_none hnone, List.map_replicate, toDatetimeCoerce, toNumericCoerce]
  · intro c hc
    simp only [List.mem_cons, List.not_mem_nil, or_false] at hc
    rcases hc with rfl | rfl | rfl | rfl | rfl | rfl | rfl | rfl | rfl | rfl | rfl | rfl
      | rfl | rfl | rfl | rfl | rfl | rfl
    all_goals simp [stepVals_length]
  · intro p hp hnone
    simp only [exotics_columns, List.mem_cons, List.not_mem_nil, or_false] at hp
    rcases hp with rfl | rfl | rfl | rfl | rfl | rfl | rfl | rfl | rfl | rfl | rfl | rfl
      | rfl | rfl | rfl | rfl
    all_goals
      simp [stepVals_of_none hnone, List.map_replicate, toDatetimeCoerce, toNumericCoerce]

/-- C4 amended, witnessed on a two-row input with headers `date` and
`id`: the canonical column sets come out exactly, and the unmatched
`book` field is missing-valued over both rows. -/
theorem C4_amended_normalizer_witness :
    ((load_mars_data (RawTable.mk ["date", "id"]
        [[Val.vstr "2024-01-05", Val.vstr "T1"], [Val.na, Val.vstr "T2"]])).map Prod.fst
      = mars_columns.map Prod.fst ++ ["source"])
    ∧ ("book", List.replicate 2 Val.na) ∈ load_mars_data (RawTable.mk ["date", "id"]
        [[Val.vstr "2024-01-05", Val.vstr "T1"], [Val.na, Val.vstr "T2"]]) := by
  refine ⟨(C4_amended_normalizer (RawTable.mk ["date", "id"]
      [[Val.vstr "2024-01-05", Val.vstr "T1"], [Val.na, Val.vstr "T2"]])
      (by decide) (by decide) (by decide) (by decide)).1, ?_⟩
  exact (C4_amended_normalizer (RawTable.mk ["date", "id"]
      [[Val.vstr "2024-01-05", Val.vstr "T1"], [Val.na, Val.vstr "T2"]])
      (by decide) (by decide) (by decide) (by decide)).2.2.1
    ("book", ["book", "portfolio"]) (by decide) (by decide) (by decide)

/-- C6: in the vanilla normalizer, the output payoff column is the
pointwise image of the mapped payoff, `index` and `bbg_ticker` columns
under the rule: an explicitly mapped payoff is kept; otherwise, if the
row's `index` or `bbg_ticker` text is non-missing and its uppercase form
contains the fixed substring `"SPY"` or `"CDX"`, the payoff becomes the
fixed label `"Vanilla"`; any row still lacking a payoff receives
`"Unknown"`. -/
theorem C6_payoff_heuristic (t : RawTable)
    (h1 : dupSelected t mars_columns = false)
    (h2 : (∃ p ∈ mars_columns, aliasCol t p.2 ≠ none) ∨ t.rows.length = 0) :
    getOutCol (load_mars_data t) "payoff_type"
      = zip3With
          (fun p i b =>
            if p = Val.na then
              if (!(i == Val.na)
                    && (containsList "SPY".toList (i.astype_str.toList.map Char.toUpper)
                      || containsList "CDX".toList (i.astype_str.toList.map Char.toUpper)))
                  || (!(b == Val.na)
                    && (containsList "SPY".toList (b.astype_str.toList.map Char.toUpper)
                      || containsList "CDX".toList (b.astype_str.toList.map Char.toUpper)))
              then Val.vstr "Vanilla"
              else Val.vstr "Unknown"
            else p)
          (stepVals t ["payoff_type", "payoff", "product_type"])
          (stepVals t ["index", "underlying", "ticker"])
          (stepVals t ["bbg_ticker", "bloomberg_ticker", "bbg ticker", "ticker"]) := by
  rw [load_mars_data_spec t h1 h2]
  rfl

/-- C6, witnessed on a three-row input: a `CDX` underlying with no
explicit payoff becomes `"Vanilla"`, a non-SPY/CDX underlying becomes
`"Unknown"`, and an explicitly mapped `"Put"` payoff is kept even though
its underlying contains `spy`. -/
theorem C6_payoff_heuristic_witness :
    getOutCol (load_mars_data (RawTable.mk ["ticker", "payoff"]
        [[Val.vstr "CDX HY 5Y", Val.na], [Val.vstr "IBM US", Val.na],
         [Val.vstr "spy us", Val.vstr "Put"]])) "payoff_type"
      = [Val.vstr "Vanilla", Val.vstr "Unknown", Val.vstr "Put"] := by
  rw [C6_payoff_heuristic (RawTable.mk ["ticker", "payoff"]
      [[Val.vstr "CDX HY 5Y", Val.na], [Val.vstr "IBM US", Val.na],
       [Val.vstr "spy us", Val.vstr "Put"]]) (by decide) (by decide)]
  decide

-- ------------------------------
-- Persistence lemmas
-- ------------------------------

theorem lookup_append_sing_ne (r : TradeRec) (k k' : String) (v : Val) (h : k' ≠ k) :
    (r ++ [(k, v)]).lookup k' = r.lookup k' := by
  induction r with
  | nil => simp [List.lookup, beq_false_of_ne h]
  | cons kv rest ih =>
    rw [List.cons_append, List.lookup, List.lookup]
    cases hb : (k' == kv.1) <;> simp [ih]

theorem lookup_append_sing_self (r : TradeRec) (k : String) (v : Val)
    (h : r.lookup k = none) :
    (r ++ [(k, v)]).lookup k = some v := by
  induction r with
  | nil => simp [List.lookup]
  | cons kv rest ih =>
    rw [List.cons_append, List.lookup]
    rw [List.lookup] at h
    cases hb : (k == kv.1)
    · simp only [hb] at h ⊢
      exact ih h
    · simp only [hb] at h
      exact Option.noConfusion h

theorem lookup_eq_none_of_not_mem {r : TradeRec} {k : String}
    (h : k ∉ r.map Prod.fst) : r.lookup k = none := by
  induction r with
  | nil => rfl
  | cons kv rest ih =>
    rw [List.lookup]
    cases hb : (k == kv.1)
    · simp only [hb]
      exact ih (fun hm => h (List.mem_cons.mpr (Or.inr hm)))
    · exact absurd (List.mem_cons.mpr (Or.inl (eq_of_beq hb))) h

theorem setKey_of_not_mem {r : TradeRec} {k : String} {v : Val}
    (h : k ∉ r.map Prod.fst) : setKey r k v = r ++ [(k, v)] := by
  rw [setKey, if_neg]
  intro hc
  exact h (List.mem_of_elem_eq_true hc)

theorem setKey_mem_keys (r : TradeRec) (k : String) (v : Val) :
    k ∈ (setKey r k v).map Prod.fst := by
  rw [setKey]
  split
  · next hc =>
    have hk : k ∈ r.map Prod.fst := List.mem_of_elem_eq_true hc
    obtain ⟨kv, hkv, hfst⟩ := List.mem_map.mp hk
    apply List.mem_map.mpr
    refine ⟨(kv.1, v), List.mem_map.mpr ⟨kv, hkv, ?_⟩, hfst⟩
    rw [if_pos hfst]
  · simp

theorem addKeys_mem (r : TradeRec) (k : String) :
    ∀ acc : List String,
    (k ∈ r.foldl (fun a kv => if a.contains kv.1 then a else a ++ [kv.1]) acc
      ↔ k ∈ acc ∨ k ∈ r.map Prod.fst) := by
  induction r with
  | nil => intro acc; simp
  | cons kv rest ih =>
    intro acc
    rw [List.foldl_cons, ih]
    by_cases hc : acc.contains kv.1
    · have hmem : kv.1 ∈ acc := List.mem_of_elem_eq_true hc
      rw [if_pos hc]
      constructor
      · rintro (h | h)
        · exact Or.inl h
        · exact Or.inr (List.mem_cons.mpr (Or.inr h))
      · rintro (h | h)
        · exact Or.inl h
        · rcases List.mem_cons.mp h with rfl | h2
          · exact Or.inl hmem
          · exact Or.inr h2
    · rw [if_neg hc]
      simp only [List.mem_append, List.mem_singleton, List.map_cons, List.mem_cons]
      tauto

theorem unionKeys_mem (rs : List TradeRec) (k : String) :
    k ∈ unionKeys rs ↔ ∃ r ∈ rs, k ∈ r.map Prod.fst := by
  have hgen : ∀ acc : List String,
      (k ∈ rs.foldl
          (fun acc r =>
            r.foldl (fun a kv => if a.contains kv.1 then a else a ++ [kv.1]) acc) acc
        ↔ k ∈ acc ∨ ∃ r ∈ rs, k ∈ r.map Prod.fst) := by
    induction rs with
    | nil => intro acc; simp
    | cons r rest ih =>
      intro acc
      rw [List.foldl_cons, ih, addKeys_mem]
      simp only [List.exists_mem_cons_iff]
      tauto
  have := hgen []
  simpa [unionKeys] using this

theorem readCol_length (cells : List String) : (readCol cells).length = cells.length := by
  rw [readCol]
  split <;> simp

theorem parse_serialized (df0 : List (String × List Val))
    (hs : ∀ c ∈ df0, liveStableCol c = true) :
    parseDateColumns ["trade_date", "expiry"]
        (df0.map (fun c => (c.1, readCol (c.2.map csvCell))))
      = some df0 := by
  induction df0 with
  | nil => rfl
  | cons c rest ih =>
    rw [List.map_cons, parseDateColumns]
    have hc := hs c (List.mem_cons_self c rest)
    rw [liveStableCol] at hc
    have hrest := ih (fun c2 hc2 => hs c2 (List.mem_cons.mpr (Or.inr hc2)))
    rw [hrest]
    by_cases hd : (["trade_date", "expiry"] : List String).contains c.1
    · rw [if_pos hd] at hc
      rw [if_pos hd, of_decide_eq_true hc]
      rfl
    · rw [if_neg hd] at hc
      rw [if_neg hd, of_decide_eq_true hc]

theorem buildDF_names (rs : List TradeRec) :
    (buildDF rs).map Prod.fst = unionKeys rs := by
  simp [buildDF, List.map_map, Function.comp_def]

theorem dfRecords_buildDF (rs : List TradeRec) (hne : unionKeys rs ≠ []) :
    dfRecords (buildDF rs)
      = rs.map (fun r => (unionKeys rs).map (fun k => (k, (r.lookup k).getD Val.na))) := by
  obtain ⟨k0, ks, hks⟩ := List.exists_cons_of_ne_nil hne
  have hn : dfNRows (buildDF rs) = rs.length := by
    rw [buildDF, hks]
    simp [dfNRows]
  rw [dfRecords, hn]
  apply List.ext_getElem
  · simp
  · intro i h1 h2
    simp only [List.getElem_map, List.getElem_range]
    rw [buildDF, List.map_map]
    apply List.map_congr_left
    intro k _
    simp only [Function.comp]
    have hi : i < (rs.map (fun r => (r.lookup k).getD Val.na)).length := by
      simpa using h2
    rw [List.getD_eq_getElem _ _ hi, List.getElem_map]

theorem lookup_expandRec (cols : List String) (tag : String) (r : TradeRec)
    (h : "trade_type" ∈ cols) :
    (expandRec cols tag r).lookup "trade_type" = some (Val.vstr tag) := by
  induction cols with
  | nil => exact absurd h (List.not_mem_nil _)
  | cons k ks ih =>
    rw [expandRec, List.map_cons, List.lookup]
    cases hb : (("trade_type" : String) == k)
    · simp only [hb]
      have hne : "trade_type" ≠ k := by
        intro he
        rw [he] at hb
        simp at hb
      have := ih ((List.mem_cons.mp h).resolve_left hne)
      rw [expandRec] at this
      exact this
    · simp only [hb]
      have hk : "trade_type" = k := eq_of_beq hb
      rw [if_pos hk.symm]

theorem recOf_tagged (cols : List String) (tag : String) (orig : TradeRec)
    (h : "trade_type" ∉ orig.map Prod.fst) :
    cols.map (fun k =>
        (k, ((setKey orig "trade_type" (Val.vstr tag)).lookup k).getD Val.na))
      = expandRec cols tag orig := by
  rw [setKey_of_not_mem h, expandRec]
  apply List.map_congr_left
  intro k _
  by_cases hk : k = "trade_type"
  · subst hk
    rw [lookup_append_sing_self _ _ _ (lookup_eq_none_of_not_mem h), if_pos rfl]
    rfl
  · rw [lookup_append_sing_ne _ _ _ _ hk, if_neg hk]

-- ------------------------------
-- Claim theorems: persistence
-- ------------------------------

/-- C5 counterexample: saving a single vanilla trade `{"trade_id": "T1"}`
and loading it back does not reproduce the same records — the reloaded
record additionally carries the `trade_type` discriminator column, so the
round trip is not the identity modulo date representation alone. -/
theorem C5_roundtrip_cex :
    load_live_trades (save_live_trades [[("trade_id", Val.vstr "T1")]] []
        (FileStore.mk none none))
      ≠ ([[(("trade_id" : String), Val.vstr "T1")]], ([] : List TradeRec)) := by
  decide

/-- C5 (amended): for trades that do not already carry a `trade_type`
key and whose saved columns survive the CSV text round trip (dates
reparse to equal calendar dates; other cells re-read unchanged — numeric
text would reload as numbers and empty text as missing), saving then
loading reproduces, in order, each vanilla and each exotic trade as a
record over the union column set: original fields preserved, the
`trade_type` discriminator added, and columns contributed by other trades
filled with the missing marker; the split matches the original
vanilla/exotic partition. -/
theorem C5_amended_roundtrip (v e : List TradeRec) (fs : FileStore)
    (hk : ∀ r ∈ v ++ e, "trade_type" ∉ r.map Prod.fst)
    (hs : ∀ c ∈ buildDF (taggedTrades v e), liveStableCol c = true) :
    load_live_trades (save_live_trades v e fs)
      = (v.map (expandRec (unionKeys (taggedTrades v e)) "Vanilla"),
         e.map (expandRec (unionKeys (taggedTrades v e)) "Exotic")) := by
  by_cases hve : taggedTrades v e = []
  · have hlen : v.length + e.length = 0 := by
      simpa [taggedTrades] using congrArg List.length hve
    have hv : v = [] := List.eq_nil_of_length_eq_zero (by omega)
    have he : e = [] := List.eq_nil_of_length_eq_zero (by omega)
    subst hv
    subst he
    simp [save_live_trades, taggedTrades, load_live_trades]
  · have htt : "trade_type" ∈ unionKeys (taggedTrades v e) := by
      obtain ⟨r0, hr0⟩ := List.exists_mem_of_ne_nil _ hve
      refine (unionKeys_mem _ _).mpr ⟨r0, hr0, ?_⟩
      rw [taggedTrades] at hr0
      rcases List.mem_append.mp hr0 with h | h
      · obtain ⟨orig, -, rfl⟩ := List.mem_map.mp h
        exact setKey_mem_keys orig _ _
      · obtain ⟨orig, -, rfl⟩ := List.mem_map.mp h
        exact setKey_mem_keys orig _ _
    have hcne : unionKeys (taggedTrades v e) ≠ [] := by
      intro h0
      rw [h0] at htt
      exact List.not_mem_nil _ htt
    have hallne : (taggedTrades v e).length ≠ 0 := by
      intro h0
      exact hve (List.eq_nil_of_length_eq_zero h0)
    have hSne : (buildDF (taggedTrades v e)).map (fun c => (c.1, c.2.map csvCell)) ≠ [] := by
      intro h0
      have hlen0 := congrArg List.length h0
      simp only [List.length_map, List.length_nil, buildDF] at hlen0
      exact hcne (List.eq_nil_of_length_eq_zero hlen0)
    have hdf : ((buildDF (taggedTrades v e)).map
          (fun c => (c.1, c.2.map csvCell))).map (fun c => (c.1, readCol c.2))
        = (buildDF (taggedTrades v e)).map (fun c => (c.1, readCol (c.2.map csvCell))) := by
      rw [List.map_map]
      rfl
    have hrows : dfNRows ((buildDF (taggedTrades v e)).map
          (fun c => (c.1, readCol (c.2.map csvCell)))) = (taggedTrades v e).length := by
      obtain ⟨k0, ks, hks⟩ := List.exists_cons_of_ne_nil hcne
      rw [buildDF, hks]
      simp [dfNRows, readCol_length]
    have hcont : ((buildDF (taggedTrades v e)).map Prod.fst).contains "trade_type" = true := by
      rw [buildDF_names]
      exact List.elem_eq_true_of_mem htt
    have hrecs : (taggedTrades v e).map
          (fun r => (unionKeys (taggedTrades v e)).map
            (fun k => (k, (r.lookup k).getD Val.na)))
        = v.map (expandRec (unionKeys (taggedTrades v e)) "Vanilla")
          ++ e.map (expandRec (unionKeys (taggedTrades v e)) "Exotic") := by
      conv_lhs => rw [taggedTrades]
      rw [List.map_append, List.map_map, List.map_map]
      congr 1
      · apply List.map_congr_left
        intro r hr
        simp only [Function.comp]
        exact recOf_tagged _ _ r (hk r (List.mem_append.mpr (Or.inl hr)))
      · apply List.map_congr_left
        intro r hr
        simp only [Function.comp]
        exact recOf_tagged _ _ r (hk r (List.mem_append.mpr (Or.inr hr)))
    simp only [save_live_trades, if_pos hve, load_live_trades]
    rw [if_neg hSne, hdf]
    rw [if_neg (fun h0 => hallne (hrows ▸ h0))]
    simp only [parse_serialized _ hs]
    rw [if_pos hcont, dfRecords_buildDF _ hcne, hrecs]
    rw [List.filter_append, List.filter_append]
    have hfvv : (v.map (expandRec (unionKeys (taggedTrades v e)) "Vanilla")).filter
          (fun r => decide (r.lookup "trade_type" = some (Val.vstr "Vanilla")))
        = v.map (expandRec (unionKeys (taggedTrades v e)) "Vanilla") := by
      apply List.filter_eq_self.mpr
      intro rec hrec
      obtain ⟨r, -, rfl⟩ := List.mem_map.mp hrec
      simp [lookup_expandRec _ _ _ htt]
    have hfev : (e.map (expandRec (unionKeys (taggedTrades v e)) "Exotic")).filter
          (fun r => decide (r.lookup "trade_type" = some (Val.vstr "Vanilla"))) = [] := by
      apply List.filter_eq_nil_iff.mpr
      intro rec hrec
      obtain ⟨r, -, rfl⟩ := List.mem_map.mp hrec
      simp [lookup_expandRec _ _ _ htt]
    have hfve : (v.map (expandRec (unionKeys (taggedTrades v e)) "Vanilla")).filter
          (fun r => decide (r.lookup "trade_type" = some (Val.vstr "Exotic"))) = [] := by
      apply List.filter_eq_nil_iff.mpr
      intro rec hrec
      obtain ⟨r, -, rfl⟩ := List.mem_map.mp hrec
      simp [lookup_expandRec _ _ _ htt]
    have hfee : (e.map (expandRec (unionKeys (taggedTrades v e)) "Exotic")).filter
          (fun r => decide (r.lookup "trade_type" = some (Val.vstr "Exotic")))
        = e.map (expandRec (unionKeys (taggedTrades v e)) "Exotic") := by
      apply List.filter_eq_self.mpr
      intro rec hrec
      obtain ⟨r, -, rfl⟩ := List.mem_map.mp hrec
      simp [lookup_expandRec _ _ _ htt]
    rw [hfvv, hfev, hfve, hfee, List.append_nil, List.nil_append]

/-- C5 amended, witnessed: a vanilla trade with a string id, a date and
an integer strike, and an exotic trade with a string id and a logic
field, round-trip to the expected expanded records. -/
theorem C5_amended_roundtrip_witness :
    load_live_trades (save_live_trades
        [[("trade_id", Val.vstr "T1"), ("trade_date", Val.vdate 2024 1 5),
          ("strike", Val.vint 100)]]
        [[("trade_id", Val.vstr "T2"), ("logic", Val.vstr "AND")]]
        (FileStore.mk none none))
      = ([[("trade_id", Val.vstr "T1"), ("trade_date", Val.vdate 2024 1 5),
           ("strike", Val.vint 100), ("trade_type", Val.vstr "Vanilla"), ("logic", Val.na)]],
         [[("trade_id", Val.vstr "T2"), ("trade_date", Val.na), ("strike", Val.na),
           ("trade_type", Val.vstr "Exotic"), ("logic", Val.vstr "AND")]]) := by
  have h := C5_amended_roundtrip
    [[("trade_id", Val.vstr "T1"), ("trade_date", Val.vdate 2024 1 5),
      ("strike", Val.vint 100)]]
    [[("trade_id", Val.vstr "T2"), ("logic", Val.vstr "AND")]]
    (FileStore.mk none none) (by decide) (by decide)
  exact h.trans (by decide)

/-- C8: a missing persisted file is treated as "no data yet", and a
malformed file degrades the same way: `load_live_trades` returns two
empty collections and `load_trade_history` an empty collection, with no
exception escaping to the caller. -/
theorem C8_load_degrades (fs : FileStore) :
    ((fs.live = none ∨ fs.live = some FileData.malformed) →
      load_live_trades fs = ([], []))
    ∧ ((fs.hist = none ∨ fs.hist = some FileData.malformed) →
      load_trade_history fs = []) := by
  constructor
  · rintro (h | h) <;> rw [load_live_trades, h]
  · rintro (h | h) <;> rw [load_trade_history, h]

/-- C8, witnessed on the empty file store. -/
theorem C8_load_degrades_witness :
    load_live_trades (FileStore.mk none none) = ([], [])
    ∧ load_trade_history (FileStore.mk none (some FileData.malformed)) = [] :=
  ⟨(C8_load_degrades (FileStore.mk none none)).1 (Or.inl rfl),
   (C8_load_degrades (FileStore.mk none (some FileData.malformed))).2 (Or.inr rfl)⟩

/-- C9: saving with zero live trades still overwrites the live file —
whatever it held before — with an empty (header-only, no-column) file,
and a subsequent load returns two empty collections rather than an error
(pandas raises `EmptyDataError` reading the empty file, which the loader
catches). -/
theorem C9_save_empty_then_load (fs : FileStore) :
    (save_live_trades [] [] fs).live = some (FileData.csv [])
    ∧ load_live_trades (save_live_trades [] [] fs) = ([], []) := by
  constructor
  · rw [save_live_trades]
    simp [taggedTrades]
  · rw [save_live_trades]
    simp [taggedTrades, load_live_trades]
